import Mathlib

/-!
Shallow embedding of the dbcli credential-persistence subsystem
(`src/helpers/crypto.ts`, `src/helpers/keychain.ts`, `src/core/config-manager.ts`,
`src/interfaces/index.ts`).

Strings at the wire/crypto level are embedded as `List Char` (so that the
JavaScript `String.split(':')` semantics can be modelled and reasoned about
directly); structured record fields use Lean `String`.  Machine bytes are
`Nat` values below 256.  External runtime primitives that the repository
merely calls (Node's AES-256-CBC cipher, PBKDF2, `JSON.parse`/`JSON.stringify`)
are passed as explicit function parameters; theorems assume exactly the
documented contracts of those primitives at the points of use.  Everything
that is the repository's own code (the envelope format, base64, prefix and
colon-part checks, the ConfigManager state machine, the zod profile schema,
the import merge loop) is embedded concretely.
-/

namespace DbCli

/-- Machine bytes: natural numbers, meaningful below 256. -/
abbrev Bytes := List Nat

/-- The base64 alphabet used by Node's `Buffer.toString('base64')`. -/
def b64Alpha : List Char :=
  ['A','B','C','D','E','F','G','H','I','J','K','L','M','N','O','P',
   'Q','R','S','T','U','V','W','X','Y','Z',
   'a','b','c','d','e','f','g','h','i','j','k','l','m','n','o','p',
   'q','r','s','t','u','v','w','x','y','z',
   '0','1','2','3','4','5','6','7','8','9','+','/']

/-- Character for a 6-bit value. -/
def b64Char (n : Nat) : Char := b64Alpha.getD n 'A'

/-- Six-bit value of an alphabet character; `none` for padding or foreign
characters (Node's base64 decoder skips those). -/
def b64CharVal (c : Char) : Option Nat := b64Alpha.findIdx? (· == c)

/-- RFC 4648 base64 encoding with padding, as produced by
`Buffer.toString('base64')`. -/
def b64encode : Bytes → List Char
  | [] => []
  | [a] => [b64Char (a / 4), b64Char (a % 4 * 16), '=', '=']
  | [a, b] => [b64Char (a / 4), b64Char (a % 4 * 16 + b / 16), b64Char (b % 16 * 4), '=']
  | a :: b :: c :: rest =>
      b64Char (a / 4) :: b64Char (a % 4 * 16 + b / 16) ::
      b64Char (b % 16 * 4 + c / 64) :: b64Char (c % 64) :: b64encode rest

/-- Reassemble bytes from a stream of 6-bit values. -/
def b64decodeVals : List Nat → Bytes
  | v1 :: v2 :: v3 :: v4 :: rest =>
      (v1 * 4 + v2 / 16) :: (v2 % 16 * 16 + v3 / 4) :: (v3 % 4 * 64 + v4) ::
      b64decodeVals rest
  | [v1, v2] => [v1 * 4 + v2 / 16]
  | [v1, v2, v3] => [v1 * 4 + v2 / 16, v2 % 16 * 16 + v3 / 4]
  | _ => []

/-- Lenient base64 decoding, as done by `Buffer.from(s, 'base64')`: foreign
characters (including `=` padding) are skipped, then 6-bit groups are packed. -/
def b64decode (s : List Char) : Bytes := b64decodeVals (s.filterMap b64CharVal)

/-- JavaScript `String.prototype.split` with a single-character separator:
`"a::b".split(':') = ['a', '', 'b']`, `"".split(':') = ['']`. -/
def splitOnChar (sep : Char) : List Char → List (List Char)
  | [] => [[]]
  | c :: cs =>
      if c = sep then [] :: splitOnChar sep cs
      else
        match splitOnChar sep cs with
        | [] => [[c]]
        | r :: rs => (c :: r) :: rs

/-- The fixed sealed-envelope marker `MSG_PREFIX = 'ENC:'`. -/
def encTag : List Char := ['E', 'N', 'C', ':']

/-- Failure modes of `decrypt`: the structural rejection
(`Invalid encrypted format`) versus the error thrown by the cipher on a
wrong password or corrupted payload. -/
inductive DecErr where
  | formatError
  | authError
deriving DecidableEq, Repr

/-- `encrypt(data, password)` from `src/helpers/crypto.ts`.  The external
primitives are parameters: `cenc key iv data` is the AES-256-CBC
encryption of the UTF-8 bytes of `data` (ciphertext bytes), `kdf password
salt` is `pbkdf2Sync(password, salt, 100000, 32, 'sha256')`, and `salt`,
`iv` are the 16 random bytes drawn by the two `randomBytes` calls.
Returns `ENC:` ++ base64 salt ++ `:` ++ base64 iv ++ `:` ++ base64 ciphertext. -/
def encrypt (cenc : Bytes → Bytes → List Char → Bytes)
    (kdf : List Char → Bytes → Bytes)
    (data password : List Char) (salt iv : Bytes) : List Char :=
  encTag ++ (b64encode salt ++ (':' :: (b64encode iv ++ (':' :: b64encode (cenc (kdf password salt) iv data)))))

/-- `decrypt(encryptedString, password)` from `src/helpers/crypto.ts`.
`cdec key iv ct` is AES-256-CBC decryption back to a UTF-8 string, `none`
when `decipher.final` throws (bad padding: wrong password or corrupted
payload). -/
def decrypt (cdec : Bytes → Bytes → Bytes → Option (List Char))
    (kdf : List Char → Bytes → Bytes)
    (encryptedString password : List Char) : Except DecErr (List Char) :=
  if encTag.isPrefixOf encryptedString then
    match splitOnChar ':' (encryptedString.drop encTag.length) with
    | [saltB64, ivB64, encryptedData] =>
        match cdec (kdf password (b64decode saltB64)) (b64decode ivB64) (b64decode encryptedData) with
        | some plain => .ok plain
        | none => .error .authError
    | _ => .error .formatError
  else .error .formatError

/-- A connection profile (`DbConfig` in `src/interfaces/index.ts`).  The
`type` field is kept as a raw string so that the zod enum check
`z.enum(['postgres'])` — the one runtime-checkable dimension of
`DbConfigSchema` on a structurally well-typed record — can fail. -/
structure DbConfig where
  id : String
  name : String
  type : String
  host : String
  port : Int
  user : String
  password : String
  database : String
  ssl : Bool
  verbose : Bool
  group : Option String
deriving DecidableEq, Repr

/-- Success of `DbConfigSchema.parse` on a structurally well-typed record:
every field already has the right shape, so only the `z.enum(['postgres'])`
constraint on `type` can reject. -/
def validConfig (c : DbConfig) : Bool := c.type == "postgres"

/-- State of the host secret-storage facility (`Bun.secrets` behind
`KeychainHelper`): availability flag, stored secrets, and a log of every
attempted `set`/`delete` call (used to express that an operation performed
no vault call at all). -/
structure VaultState where
  avail : Bool
  secrets : List (String × String)
  puts : List (String × String)
  dels : List String
deriving DecidableEq, Repr

/-- `KeychainHelper.setPassword`: best-effort; reports `false` and stores
nothing when the facility is unavailable.  The attempt is always logged. -/
def setPassword (account pw : String) (v : VaultState) : Bool × VaultState :=
  if v.avail then
    (true, { v with
             secrets := (account, pw) :: v.secrets
             puts := (account, pw) :: v.puts })
  else
    (false, { v with puts := (account, pw) :: v.puts })

/-- `KeychainHelper.getPassword`: `null` when unavailable, otherwise
`secret || null` (an empty stored string also reads back as absent). -/
def getPassword (account : String) (v : VaultState) : Option String :=
  if v.avail then
    match v.secrets.find? (fun kv => kv.1 == account) with
    | some kv => if kv.2 = "" then none else some kv.2
    | none => none
  else none

/-- `KeychainHelper.deletePassword`: best-effort removal; the attempt is
always logged. -/
def deletePassword (account : String) (v : VaultState) : Bool × VaultState :=
  if v.avail then
    (true, { v with
             secrets := v.secrets.filter fun kv => !(kv.1 == account)
             dels := account :: v.dels })
  else
    (false, { v with dels := account :: v.dels })

/-- `ConfigManager` state: the in-memory collection, the vault, and the
history of metadata-file writes (most recent first).  Each entry of
`fileWrites` is the full profile list written by one `saveConfigRaw` call. -/
structure CMState where
  configs : List DbConfig
  vault : VaultState
  fileWrites : List (List DbConfig)
deriving DecidableEq, Repr

/-- The password-stripping map inside `saveConfigRaw`:
`configs.map (c => ({ ...c, password: '' }))`. -/
def stripPasswords (l : List DbConfig) : List DbConfig :=
  l.map fun c => { c with password := "" }

/-- `ConfigManager.saveConfigRaw`: writes the whole collection with every
password forced to the empty string (write errors are caught and logged,
so the state effect is the same either way). -/
def saveConfigRaw (s : CMState) : CMState :=
  { s with fileWrites := stripPasswords s.configs :: s.fileWrites }

/-- The only error `ConfigManager.addConfig` can raise: the zod validation
failure (re-thrown after logging). -/
inductive CfgErr where
  | validationError
deriving DecidableEq, Repr

/-- `ConfigManager.addConfig`: validate; on failure re-throw with the state
untouched.  Otherwise best-effort store a non-empty password in the vault,
append the profile, and persist metadata. -/
def addConfig (c : DbConfig) (s : CMState) : Except CfgErr Unit × CMState :=
  if validConfig c then
    let s1 := if c.password = "" then s
              else { s with vault := (setPassword c.id c.password s.vault).2 }
    (.ok (), saveConfigRaw { s1 with configs := s1.configs ++ [c] })
  else (.error .validationError, s)

/-- JavaScript `Array.prototype.findIndex` (as `Option Nat` instead of -1). -/
def findIndex (p : α → Bool) : List α → Option Nat
  | [] => none
  | a :: as => if p a then some 0 else (findIndex p as).map (· + 1)

/-- `ConfigManager.updateConfig`: locate by id; absent id is a silent no-op;
otherwise best-effort store a non-empty password, replace the entry at its
original position, and persist metadata. -/
def updateConfig (c : DbConfig) (s : CMState) : CMState :=
  match findIndex (fun e => e.id == c.id) s.configs with
  | none => s
  | some i =>
      let s1 := if c.password = "" then s
                else { s with vault := (setPassword c.id c.password s.vault).2 }
      saveConfigRaw { s1 with configs := s1.configs.set i c }

/-- `ConfigManager.removeConfig`: filter out the id, persist metadata, then
best-effort delete the vault entry. -/
def removeConfig (id : String) (s : CMState) : CMState :=
  let s1 := saveConfigRaw { s with configs := s.configs.filter (fun c => !(c.id == id)) }
  { s1 with vault := (deletePassword id s1.vault).2 }

/-- `ConfigManager.loadPasswordsFromKeychain` (the hydration step of
`init`): overwrite each profile's in-memory password with the vault secret
when one is found. -/
def loadPasswordsFromKeychain (v : VaultState) (cfgs : List DbConfig) : List DbConfig :=
  cfgs.map fun c =>
    match getPassword c.id v with
    | some pw => { c with password := pw }
    | none => c

/-- One CRUD operation on the Credential Store. -/
inductive Op where
  | add (c : DbConfig)
  | update (c : DbConfig)
  | remove (id : String)

/-- Apply one operation (a failed `add` leaves the state untouched; the
thrown error goes to the caller). -/
def applyOp (op : Op) (s : CMState) : CMState :=
  match op with
  | .add c => (addConfig c s).2
  | .update c => updateConfig c s
  | .remove id => removeConfig id s

/-- Run a sequence of operations. -/
def runOps (ops : List Op) (s : CMState) : CMState :=
  ops.foldl (fun s op => applyOp op s) s

/-- A store state whose metadata file has never been written, with
arbitrary in-memory profiles (possibly hydrated with secrets) and an
arbitrary vault. -/
def initState (cfgs : List DbConfig) (v : VaultState) : CMState :=
  { configs := cfgs, vault := v, fileWrites := [] }

/-- Every metadata-file write in the history has only empty password
fields. -/
def allClean (ws : List (List DbConfig)) : Bool :=
  ws.all fun w => w.all fun c => c.password == ""

/-- A JSON value, the result of a successful `JSON.parse`. -/
inductive JVal where
  | jnull
  | jbool (b : Bool)
  | jnum (n : Int)
  | jstr (s : String)
  | jlist (xs : List JVal)
  | jobj (fs : List (String × JVal))

/-- JavaScript truthiness of a JSON value. -/
def truthy : JVal → Bool
  | .jnull => false
  | .jbool b => b
  | .jnum n => n != 0
  | .jstr s => s != ""
  | .jlist _ => true
  | .jobj _ => true

/-- Property access on a parsed JSON object (first matching key). -/
def jlookup : List (String × JVal) → String → Option JVal
  | [], _ => none
  | (k, v) :: rest, key => if k = key then some v else jlookup rest key

/-- The expression `parsed.connections || parsed` in
`ConfigManager.importFromFile`: use the `connections` property when the
parsed value is an object carrying a truthy one, otherwise the whole
parsed value. -/
def getConnections (j : JVal) : JVal :=
  match j with
  | .jobj fs =>
      match jlookup fs "connections" with
      | some v => if truthy v then v else j
      | none => j
  | _ => j

/-- `DbConfigSchema.parse` on one JSON value: required string fields,
numeric `port`, the `postgres` enum check, defaults `''`/`false`/`false`
for absent `password`/`ssl`/`verbose`, optional `group`.  Unknown keys are
stripped (zod default). -/
def validateProfile (j : JVal) : Option DbConfig :=
  match j with
  | .jobj fs =>
      match jlookup fs "id", jlookup fs "name", jlookup fs "type", jlookup fs "host",
            jlookup fs "port", jlookup fs "user", jlookup fs "database" with
      | some (.jstr id), some (.jstr name), some (.jstr ty), some (.jstr host),
        some (.jnum port), some (.jstr user), some (.jstr database) =>
          if ty = "postgres" then
            match (match jlookup fs "password" with
                   | none => some ""
                   | some (.jstr p) => some p
                   | some _ => none),
                  (match jlookup fs "ssl" with
                   | none => some false
                   | some (.jbool b) => some b
                   | some _ => none),
                  (match jlookup fs "verbose" with
                   | none => some false
                   | some (.jbool b) => some b
                   | some _ => none),
                  (match jlookup fs "group" with
                   | none => some none
                   | some (.jstr g) => some (some g)
                   | some _ => none) with
          | some pw, some ssl, some verbose, some group =>
              some { id := id, name := name, type := ty, host := host, port := port,
                     user := user, password := pw, database := database, ssl := ssl,
                     verbose := verbose, group := group }
          | _, _, _, _ => none
          else none
      | _, _, _, _, _, _, _ => none
  | _ => none

/-- Element-wise validation of a JSON array (whole-batch: one bad entry
fails everything, as `z.array(DbConfigSchema).parse` does). -/
def validateList : List JVal → Option (List DbConfig)
  | [] => some []
  | x :: rest =>
      match validateProfile x, validateList rest with
      | some c, some cs => some (c :: cs)
      | _, _ => none

/-- `ConfigFileSchema.parse`: only a JSON array of valid profiles passes. -/
def validateProfiles (j : JVal) : Option (List DbConfig) :=
  match j with
  | .jlist xs => validateList xs
  | _ => none

/-- Errors observable from `ConfigManager.importFromFile`: the
distinguished `EncryptedFileError`, the propagated `JSON.parse` syntax
error, the collapsed `Invalid password or corrupted file` error, and the
zod error for an invalid profile batch. -/
inductive ImpErr where
  | encryptedFile
  | parseError
  | badPasswordOrCorrupt
  | invalidProfiles
deriving DecidableEq, Repr

/-- The merge loop of `importFromFile` (lines 287–296): skip ids already
present in the in-memory collection (which grows as the batch is
processed), vault-store non-empty passwords of added profiles, append in
file order, count additions. -/
def importLoop : List DbConfig → CMState → Nat → Nat × CMState
  | [], s, n => (n, s)
  | c :: rest, s, n =>
      if s.configs.any (fun e => e.id == c.id) then importLoop rest s n
      else
        let s1 := if c.password = "" then s
                  else { s with vault := (setPassword c.id c.password s.vault).2 }
        importLoop rest { s1 with configs := s1.configs ++ [c] } (n + 1)

/-- The merge stage of `importFromFile`: run the loop, persist metadata
once if anything was added, return the count. -/
def importConfigs (l : List DbConfig) (s : CMState) : Nat × CMState :=
  let r := importLoop l s 0
  if r.1 > 0 then (r.1, saveConfigRaw r.2) else r

/-- The post-parse stage of `importFromFile`: `parsed.connections || parsed`,
whole-batch zod validation (a failure propagates as the zod error), then
the merge stage. -/
def importParsed (parsed : JVal) (s : CMState) : Except ImpErr (Nat × CMState) :=
  match validateProfiles (getConnections parsed) with
  | some l => .ok (importConfigs l s)
  | none => .error .invalidProfiles

/-- `ConfigManager.importFromFile` on raw file content.  `jparse` is the
external `JSON.parse` (`none` = thrown SyntaxError).  With a password, a
parse failure is retried through `decrypt` and any failure inside that
retry collapses to one error; without a password, sealed-looking content
raises the distinguished `EncryptedFileError` and anything else re-throws
the parse error. -/
def importFromFile (jparse : List Char → Option JVal)
    (cdec : Bytes → Bytes → Bytes → Option (List Char))
    (kdf : List Char → Bytes → Bytes)
    (content : List Char) (password : Option (List Char)) (s : CMState) :
    Except ImpErr (Nat × CMState) :=
  match jparse content with
  | some parsed => importParsed parsed s
  | none =>
      match password with
      | some p =>
          match decrypt cdec kdf content p with
          | .ok decrypted =>
              match jparse decrypted with
              | some parsed => importParsed parsed s
              | none => .error .badPasswordOrCorrupt
          | .error _ => .error .badPasswordOrCorrupt
      | none =>
          if encTag.isPrefixOf content then .error .encryptedFile
          else .error .parseError

/-- JSON.stringify's view of one profile (insertion-ordered keys; an
absent `group` is omitted, as `JSON.stringify` drops `undefined`). -/
def profileToJVal (c : DbConfig) : JVal :=
  .jobj ([("id", .jstr c.id), ("name", .jstr c.name), ("type", .jstr c.type),
          ("host", .jstr c.host), ("port", .jnum c.port), ("user", .jstr c.user),
          ("password", .jstr c.password), ("database", .jstr c.database),
          ("ssl", .jbool c.ssl), ("verbose", .jbool c.verbose)]
         ++ (match c.group with
             | some g => [("group", .jstr g)]
             | none => []))

/-- The export envelope object of `exportToFile`:
`{version: 1, exportedAt, connections}`. -/
def exportEnvelope (cfgs : List DbConfig) (ts : String) : JVal :=
  .jobj [("version", .jnum 1), ("exportedAt", .jstr ts),
         ("connections", .jlist (cfgs.map profileToJVal))]

/-- `ConfigManager.exportToFile`, returning the file content that is
written.  `jstringify` is the external `JSON.stringify`; passwords are
stripped exactly when no encryption password is given and plain passwords
were not explicitly allowed. -/
def exportToFile (jstringify : JVal → List Char)
    (cenc : Bytes → Bytes → List Char → Bytes)
    (kdf : List Char → Bytes → Bytes)
    (cfgs : List DbConfig) (encryptionPassword : Option (List Char))
    (includePlainPasswords : Bool) (ts : String) (salt iv : Bytes) : List Char :=
  let configsToExport :=
    if encryptionPassword.isNone && !includePlainPasswords then stripPasswords cfgs
    else cfgs
  let jsonContent := jstringify (exportEnvelope configsToExport ts)
  match encryptionPassword with
  | some p => encrypt cenc kdf jsonContent p salt iv
  | none => jsonContent

/-! ### Concrete instantiations of the external primitives, used by the
witness theorems to evaluate the model on closed inputs. -/

/-- A concrete cipher-encryption instance for witnesses. -/
def cencW : Bytes → Bytes → List Char → Bytes := fun _ _ _ => [7, 200]

/-- A concrete cipher-decryption instance for witnesses, matching `cencW`
on the witness plaintext. -/
def cdecW : Bytes → Bytes → Bytes → Option (List Char) := fun _ _ _ => some ['h', 'i']

/-- A concrete key-derivation instance for witnesses. -/
def kdfW : List Char → Bytes → Bytes := fun _ _ => [1]

/-- Witness plaintext. -/
def ptW : List Char := ['h', 'i']

/-- Witness password. -/
def pwW : List Char := ['p', 'w']

/-- A `JSON.parse` instance that always fails (non-JSON file content). -/
def jparseNoneW : List Char → Option JVal := fun _ => none

/-- A concrete empty store for witnesses and counterexamples. -/
def emptySt : CMState :=
  { configs := []
    vault := { avail := true, secrets := [], puts := [], dels := [] }
    fileWrites := [] }

/-- A structurally complete but invalid profile (wrong `type` tag). -/
def badCfgW : DbConfig :=
  { id := "a", name := "X", type := "mysql", host := "h", port := 5432,
    user := "u", password := "p", database := "d", ssl := false,
    verbose := false, group := none }

/-- A valid profile used by concrete witnesses. -/
def cfgW : DbConfig :=
  { id := "a", name := "X", type := "postgres", host := "h", port := 5432,
    user := "u", password := "", database := "d", ssl := false,
    verbose := false, group := none }

/-- A concrete store state for witnesses: one profile, an available vault
holding a secret for `"a"`, no writes yet. -/
def stW : CMState :=
  { configs := [cfgW]
    vault := { avail := true, secrets := [("a", "s3cr3t")], puts := [], dels := [] }
    fileWrites := [] }

/-- The updated profile for the C10 witness: same id, empty password. -/
def updW : DbConfig := { cfgW with name := "Y", password := "" }

/-- A second valid profile, id `"b"`, with a non-empty password. -/
def cfgB : DbConfig := { cfgW with id := "b", password := "pw2" }

/-- A profile sharing `cfgW`'s id but with different display data, used to
exhibit the duplicate-id import behaviour. -/
def dupB : DbConfig := { cfgW with name := "Z" }

/-- A `JSON.parse` instance returning a bare JSON array of one profile. -/
def jparseBareW : List Char → Option JVal := fun _ => some (.jlist [profileToJVal cfgB])

/-- The profile collection exported in the C4 witness. -/
def srcW : List DbConfig := [cfgB]

/-- The export envelope of the C4 witness. -/
def envW : JVal := exportEnvelope srcW "t0"

/-- A `JSON.stringify` instance specialized to the C4 witness. -/
def jstringifyW : JVal → List Char := fun _ => ['J']

/-- The inverse `JSON.parse` instance for `jstringifyW` on the C4 witness
envelope; anything else is a parse failure. -/
def jparseW : List Char → Option JVal := fun s => if s = ['J'] then some envW else none

/-- A cipher-decryption instance matching `cencW` on the C4 witness
serialized envelope. -/
def cdecW4 : Bytes → Bytes → Bytes → Option (List Char) := fun _ _ _ => some ['J']

/-- The incoming profiles whose id is not yet in the store (the ones the
merge loop adds, in file order). -/
def newProfiles (l : List DbConfig) (s : CMState) : List DbConfig :=
  l.filter fun c => !(s.configs.any fun e => e.id == c.id)

/-! ### Base64 and split lemmas -/

theorem b64CharVal_b64Char_fin : ∀ v : Fin 64, b64CharVal (b64Char v.1) = some v.1 := by decide

theorem b64CharVal_b64Char {v : Nat} (h : v < 64) : b64CharVal (b64Char v) = some v :=
  b64CharVal_b64Char_fin ⟨v, h⟩

theorem b64CharVal_pad : b64CharVal '=' = none := by decide

/-- Decoding inverts encoding on genuine byte lists. -/
theorem b64decode_b64encode (bs : Bytes) (h : ∀ x ∈ bs, x < 256) :
    b64decode (b64encode bs) = bs := by
  induction bs using b64encode.induct with
  | case1 => rfl
  | case2 a =>
      have ha : a < 256 := h a (by simp)
      simp [b64encode, b64decode, List.filterMap,
        b64CharVal_b64Char (by omega : a / 4 < 64),
        b64CharVal_b64Char (by omega : a % 4 * 16 < 64),
        b64CharVal_pad, b64decodeVals]
      omega
  | case3 a b =>
      have ha : a < 256 := h a (by simp)
      have hb : b < 256 := h b (by simp)
      simp [b64encode, b64decode, List.filterMap,
        b64CharVal_b64Char (by omega : a / 4 < 64),
        b64CharVal_b64Char (by omega : a % 4 * 16 + b / 16 < 64),
        b64CharVal_b64Char (by omega : b % 16 * 4 < 64),
        b64CharVal_pad, b64decodeVals]
      omega
  | case4 a b c rest ih =>
      have ha : a < 256 := h a (by simp)
      have hb : b < 256 := h b (by simp)
      have hc : c < 256 := h c (by simp)
      have ih' := ih (fun x hx => h x (by simp [hx]))
      simp only [b64encode, b64decode, List.filterMap_cons,
        b64CharVal_b64Char (by omega : a / 4 < 64),
        b64CharVal_b64Char (by omega : a % 4 * 16 + b / 16 < 64),
        b64CharVal_b64Char (by omega : b % 16 * 4 + c / 64 < 64),
        b64CharVal_b64Char (by omega : c % 64 < 64),
        b64decodeVals]
      simp only [b64decode] at ih'
      rw [ih']
      simp only [List.cons.injEq]
      refine ⟨by omega, by omega, by omega, trivial⟩

theorem b64Char_ne_colon_fin : ∀ v : Fin 64, b64Char v.1 ≠ ':' := by decide

theorem b64Char_ne_colon (n : Nat) : b64Char n ≠ ':' := by
  by_cases h : n < 64
  · exact b64Char_ne_colon_fin ⟨n, h⟩
  · have hd : b64Alpha.getD n 'A' = 'A' := List.getD_eq_default _ _ (by simp [b64Alpha]; omega)
    simp only [b64Char]
    rw [hd]
    decide

/-- Base64 output never contains the envelope delimiter. -/
theorem colon_notMem_b64encode (bs : Bytes) : ':' ∉ b64encode bs := by
  induction bs using b64encode.induct with
  | case1 => simp [b64encode]
  | case2 a =>
      intro hmem
      simp only [b64encode, List.mem_cons, List.not_mem_nil, or_false] at hmem
      rcases hmem with h | h | h | h
      · exact b64Char_ne_colon _ h.symm
      · exact b64Char_ne_colon _ h.symm
      · exact absurd h (by decide)
      · exact absurd h (by decide)
  | case3 a b =>
      intro hmem
      simp only [b64encode, List.mem_cons, List.not_mem_nil, or_false] at hmem
      rcases hmem with h | h | h | h
      · exact b64Char_ne_colon _ h.symm
      · exact b64Char_ne_colon _ h.symm
      · exact b64Char_ne_colon _ h.symm
      · exact absurd h (by decide)
  | case4 a b c rest ih =>
      intro hmem
      simp only [b64encode, List.mem_cons] at hmem
      rcases hmem with h | h | h | h | h
      · exact b64Char_ne_colon _ h.symm
      · exact b64Char_ne_colon _ h.symm
      · exact b64Char_ne_colon _ h.symm
      · exact b64Char_ne_colon _ h.symm
      · exact ih h

theorem splitOnChar_ne_nil (sep : Char) (l : List Char) : splitOnChar sep l ≠ [] := by
  induction l with
  | nil => simp [splitOnChar]
  | cons c cs ih =>
      simp only [splitOnChar]
      by_cases h : c = sep
      · simp [h]
      · simp only [if_neg h]
        cases hs : splitOnChar sep cs with
        | nil => simp
        | cons r rs => simp

theorem splitOnChar_of_not_mem {sep : Char} {a : List Char} (h : sep ∉ a) :
    splitOnChar sep a = [a] := by
  induction a with
  | nil => rfl
  | cons c cs ih =>
      have hc : c ≠ sep := fun hc => h (hc ▸ List.mem_cons_self c cs)
      have hcs : sep ∉ cs := fun hm => h (List.mem_cons_of_mem _ hm)
      simp only [splitOnChar, if_neg hc, ih hcs]

theorem splitOnChar_append {sep : Char} {a rest : List Char} (h : sep ∉ a) :
    splitOnChar sep (a ++ (sep :: rest)) = a :: splitOnChar sep rest := by
  induction a with
  | nil => simp [splitOnChar]
  | cons c cs ih =>
      have hc : c ≠ sep := fun hc => h (hc ▸ List.mem_cons_self c cs)
      have hcs : sep ∉ cs := fun hm => h (List.mem_cons_of_mem _ hm)
      simp only [List.cons_append, splitOnChar, if_neg hc]
      rw [show cs.append (sep :: rest) = cs ++ (sep :: rest) from rfl, ih hcs]

theorem encTag_isPrefixOf_append (x : List Char) : encTag.isPrefixOf (encTag ++ x) = true := by
  simp [ List.isPrefixOf_iff_prefix]

theorem drop_encTag_append (x : List Char) : (encTag ++ x).drop encTag.length = x := by
  simp [encTag]

/-- The envelope body splits back into its three base64 segments. -/
theorem splitOnChar_envelope (a b c : Bytes) :
    splitOnChar ':' (b64encode a ++ (':' :: (b64encode b ++ (':' :: b64encode c)))) =
      [b64encode a, b64encode b, b64encode c] := by
  rw [splitOnChar_append (colon_notMem_b64encode a),
      splitOnChar_append (colon_notMem_b64encode b),
      splitOnChar_of_not_mem (colon_notMem_b64encode c)]

/-- Sealing then opening with the same password restores the plaintext,
assuming only the cipher contract at the values actually used. -/
theorem decrypt_encrypt
    (cenc : Bytes → Bytes → List Char → Bytes)
    (cdec : Bytes → Bytes → Bytes → Option (List Char))
    (kdf : List Char → Bytes → Bytes)
    (data password : List Char) (salt iv : Bytes)
    (hs : ∀ x ∈ salt, x < 256) (hi : ∀ x ∈ iv, x < 256)
    (hct : ∀ x ∈ cenc (kdf password salt) iv data, x < 256)
    (hcd : cdec (kdf password salt) iv (cenc (kdf password salt) iv data) = some data) :
    decrypt cdec kdf (encrypt cenc kdf data password salt iv) password = .ok data := by
  rw [encrypt, decrypt]
  rw [if_pos (by rw [encTag_isPrefixOf_append])]
  rw [drop_encTag_append, splitOnChar_envelope]
  simp [b64decode_b64encode salt hs, b64decode_b64encode iv hi,
        b64decode_b64encode _ hct, hcd]

/-! ### Claim C2 -/

/-- Claim C2: for every plaintext (arbitrary `List Char`, so empty,
unicode and large payloads are all covered) and every password,
opening a sealed envelope with the same password returns the original
plaintext.  The AES-256-CBC/PBKDF2 primitives are parameters constrained
only by their documented contract at the values actually used: ciphertext,
salt and IV are bytes, and decryption inverts encryption under the same
key and IV. -/
theorem seal_open_roundtrip
    (cenc : Bytes → Bytes → List Char → Bytes)
    (cdec : Bytes → Bytes → Bytes → Option (List Char))
    (kdf : List Char → Bytes → Bytes)
    (data password : List Char) (salt iv : Bytes)
    (hs : ∀ x ∈ salt, x < 256) (hi : ∀ x ∈ iv, x < 256)
    (hct : ∀ x ∈ cenc (kdf password salt) iv data, x < 256)
    (hcd : cdec (kdf password salt) iv (cenc (kdf password salt) iv data) = some data) :
    decrypt cdec kdf (encrypt cenc kdf data password salt iv) password = .ok data :=
  decrypt_encrypt cenc cdec kdf data password salt iv hs hi hct hcd

/-- Witness for C2 at closed inputs. -/
theorem seal_open_roundtrip_witness :
    decrypt cdecW kdfW (encrypt cencW kdfW ptW pwW [0, 255] [16]) pwW = .ok ptW :=
  seal_open_roundtrip cencW cdecW kdfW ptW pwW [0, 255] [16]
    (by decide) (by decide) (by decide) rfl

/-! ### Claim C5 -/

/-- Claim C5: any input that lacks the `ENC:` tag or whose remainder does
not split into exactly three colon-delimited parts is rejected by `decrypt`
with the structural format error; structurally well-formed envelopes whose
payload the cipher rejects fail with the distinct authenticity error. -/
theorem open_format_error
    (cdec : Bytes → Bytes → Bytes → Option (List Char))
    (kdf : List Char → Bytes → Bytes)
    (s password : List Char)
    (h : encTag.isPrefixOf s = false ∨ (splitOnChar ':' (s.drop encTag.length)).length ≠ 3) :
    decrypt cdec kdf s password = .error .formatError ∧
    (∀ s2 a b c, encTag.isPrefixOf s2 = true →
      splitOnChar ':' (s2.drop encTag.length) = [a, b, c] →
      cdec (kdf password (b64decode a)) (b64decode b) (b64decode c) = none →
      decrypt cdec kdf s2 password = .error .authError) ∧
    DecErr.formatError ≠ DecErr.authError := by
  refine ⟨?_, ?_, by decide⟩
  · rw [decrypt]
    by_cases hp : encTag.isPrefixOf s
    · rw [if_pos hp]
      rcases h with hpre | hlen
      · rw [hp] at hpre
        exact absurd hpre (by simp)
      · rcases hsp : splitOnChar ':' (s.drop encTag.length) with _ | ⟨a, _ | ⟨b, _ | ⟨c, _ | ⟨d, t⟩⟩⟩⟩
        · rfl
        · rfl
        · rfl
        · exact absurd (by rw [hsp]; rfl) hlen
        · rfl
    · rw [if_neg hp]
  · intro s2 a b c hp2 hsp2 hnone
    rw [decrypt, if_pos hp2, hsp2]
    simp [hnone]

/-- Witness for C5 at a closed input lacking the tag. -/
theorem open_format_error_witness :
    decrypt cdecW kdfW ['X'] pwW = .error .formatError :=
  (open_format_error cdecW kdfW ['X'] pwW (Or.inl (by decide))).1

/-! ### Claim C8 -/

/-- Claim C8: sealing the same plaintext with the same password under
independently drawn fresh randomness yields different envelopes —
freshness rendered deterministically as: the two (salt, IV) draws are not
both identical. -/
theorem seal_fresh_randomness_differs
    (cenc : Bytes → Bytes → List Char → Bytes)
    (kdf : List Char → Bytes → Bytes)
    (data password : List Char) (salt1 iv1 salt2 iv2 : Bytes)
    (hs1 : ∀ x ∈ salt1, x < 256) (hi1 : ∀ x ∈ iv1, x < 256)
    (hs2 : ∀ x ∈ salt2, x < 256) (hi2 : ∀ x ∈ iv2, x < 256)
    (hne : salt1 ≠ salt2 ∨ iv1 ≠ iv2) :
    encrypt cenc kdf data password salt1 iv1 ≠ encrypt cenc kdf data password salt2 iv2 := by
  intro heq
  have h3 := congrArg (fun s => splitOnChar ':' (s.drop encTag.length)) heq
  simp only [encrypt, drop_encTag_append, splitOnChar_envelope, List.cons.injEq] at h3
  have hsalt : salt1 = salt2 := by
    have e1 : b64encode salt1 = b64encode salt2 := h3.1
    have := congrArg b64decode e1
    rwa [b64decode_b64encode salt1 hs1, b64decode_b64encode salt2 hs2] at this
  have hiv : iv1 = iv2 := by
    have e2 : b64encode iv1 = b64encode iv2 := h3.2.1
    have := congrArg b64decode e2
    rwa [b64decode_b64encode iv1 hi1, b64decode_b64encode iv2 hi2] at this
  rcases hne with hne | hne
  · exact hne hsalt
  · exact hne hiv

/-- Witness for C8 at closed inputs with distinct salts. -/
theorem seal_fresh_randomness_differs_witness :
    encrypt cencW kdfW ptW pwW [0] [2] ≠ encrypt cencW kdfW ptW pwW [1] [2] :=
  seal_fresh_randomness_differs cencW kdfW ptW pwW [0] [2] [1] [2]
    (by decide) (by decide) (by decide) (by decide) (Or.inl (by decide))

/-! ### Credential Store state-machine lemmas -/

/-- Every operation either leaves the write history alone or pushes one
password-stripped snapshot. -/
theorem applyOp_fileWrites_shape (op : Op) (s : CMState) :
    (applyOp op s).fileWrites = s.fileWrites ∨
    ∃ l, (applyOp op s).fileWrites = stripPasswords l :: s.fileWrites := by
  cases op with
  | add c =>
      by_cases hv : validConfig c
      · by_cases hpw : c.password = ""
        · right
          exact ⟨s.configs ++ [c], by simp [applyOp, addConfig, hv, hpw, saveConfigRaw]⟩
        · right
          exact ⟨s.configs ++ [c], by simp [applyOp, addConfig, hv, hpw, saveConfigRaw]⟩
      · left; simp [applyOp, addConfig, hv]
  | update c =>
      cases hidx : findIndex (fun e => e.id == c.id) s.configs with
      | none => left; simp [applyOp, updateConfig, hidx]
      | some i =>
          by_cases hpw : c.password = ""
          · right
            exact ⟨s.configs.set i c, by simp [applyOp, updateConfig, hidx, hpw, saveConfigRaw]⟩
          · right
            exact ⟨s.configs.set i c, by simp [applyOp, updateConfig, hidx, hpw, saveConfigRaw]⟩
  | remove id =>
      right
      exact ⟨s.configs.filter (fun c => !(c.id == id)),
        by simp [applyOp, removeConfig, saveConfigRaw]⟩

theorem stripPasswords_all_empty (l : List DbConfig) :
    (stripPasswords l).all (fun c => c.password == "") = true := by
  simp [stripPasswords, List.all_map, Function.comp_def]

theorem applyOp_clean (op : Op) (s : CMState) (h : allClean s.fileWrites = true) :
    allClean (applyOp op s).fileWrites = true := by
  rcases applyOp_fileWrites_shape op s with heq | ⟨l, heq⟩
  · rw [heq]; exact h
  · rw [heq]
    simp only [allClean, List.all_cons, Bool.and_eq_true] at *
    exact ⟨stripPasswords_all_empty l, h⟩

theorem runOps_clean (ops : List Op) :
    ∀ s : CMState, allClean s.fileWrites = true →
      allClean (runOps ops s).fileWrites = true := by
  induction ops with
  | nil => intro s h; exact h
  | cons op rest ih =>
      intro s h
      simp only [runOps, List.foldl_cons] at *
      exact ih _ (applyOp_clean op s h)

/-! ### Claim C1 -/

/-- Claim C1: starting from any freshly initialized store (arbitrary
in-memory profiles — including hydrated non-empty passwords — and an
arbitrary vault), every metadata-file write produced by any sequence of
add/update/remove operations carries only empty password fields. -/
theorem metadata_file_never_stores_password (ops : List Op) (cfgs : List DbConfig) (v : VaultState) :
    allClean (runOps ops (initState cfgs v)).fileWrites = true :=
  runOps_clean ops (initState cfgs v) rfl

/-! ### Claim C7 -/

/-- Claim C7: a profile rejected by the schema makes `addConfig` throw the
validation error and leave the whole state untouched: no in-memory
change, no metadata write, no vault attempt (the vault log is part of the
state). -/
theorem add_invalid_profile_rejected (c : DbConfig) (s : CMState) (h : validConfig c = false) :
    addConfig c s = (.error .validationError, s) := by
  simp [addConfig, h]

/-- Witness for C7 at closed inputs. -/
theorem add_invalid_profile_rejected_witness :
    addConfig badCfgW stW = (.error .validationError, stW) :=
  add_invalid_profile_rejected badCfgW stW (by decide)

/-! ### findIndex lemma -/

theorem findIndex_lt_length {p : α → Bool} :
    ∀ {l : List α} {i : Nat}, findIndex p l = some i → i < l.length := by
  intro l
  induction l with
  | nil => intro i h; simp [findIndex] at h
  | cons a as ih =>
      intro i h
      simp only [findIndex] at h
      by_cases hp : p a
      · rw [if_pos hp] at h
        cases h
        simp
      · rw [if_neg hp] at h
        cases hmap : findIndex p as with
        | none => rw [hmap] at h; simp at h
        | some j =>
            rw [hmap] at h
            simp at h
            have := ih hmap
            simp only [List.length_cons]
            omega

/-! ### Claim C10 -/

/-- Claim C10: `updateConfig` on an existing id with an empty password
replaces the profile in place and persists metadata, but performs no
vault operation whatsoever (contents and attempt logs unchanged), so a
previously stored secret for that id survives and the next hydration puts
it back into the profile's password. -/
theorem update_empty_password_frame
    (c : DbConfig) (s : CMState) (i : Nat) (p : String)
    (hpw : c.password = "")
    (hidx : findIndex (fun e => e.id == c.id) s.configs = some i)
    (hsec : getPassword c.id s.vault = some p) :
    updateConfig c s = { configs := s.configs.set i c
                         vault := s.vault
                         fileWrites := stripPasswords (s.configs.set i c) :: s.fileWrites } ∧
    (loadPasswordsFromKeychain (updateConfig c s).vault (updateConfig c s).configs)[i]? =
      some { c with password := p } := by
  have hstate : updateConfig c s =
      { configs := s.configs.set i c
        vault := s.vault
        fileWrites := stripPasswords (s.configs.set i c) :: s.fileWrites } := by
    simp [updateConfig, hidx, hpw, saveConfigRaw]
  refine ⟨hstate, ?_⟩
  rw [hstate]
  have hlt : i < s.configs.length := findIndex_lt_length hidx
  simp only [loadPasswordsFromKeychain]
  rw [List.getElem?_map, List.getElem?_set_self']
  simp only [List.getElem?_eq_getElem (by simpa using hlt)]
  simp [hsec]

/-- Witness for C10 at closed inputs: after the update, hydration
restores the surviving vault secret. -/
theorem update_empty_password_frame_witness :
    (loadPasswordsFromKeychain (updateConfig updW stW).vault (updateConfig updW stW).configs)[0]? =
      some { updW with password := "s3cr3t" } :=
  (update_empty_password_frame updW stW 0 "s3cr3t" rfl (by decide) (by decide)).2

/-! ### Import merge lemmas -/

theorem length_filter_not_add (l : List α) (p : α → Bool) :
    (l.filter p).length + (l.filter fun x => !(p x)).length = l.length := by
  induction l with
  | nil => rfl
  | cons a as ih =>
      by_cases hp : p a <;> simp [List.filter_cons, hp] <;> omega

/-- The merge loop, on a batch with pairwise distinct ids: it returns the
accumulator plus the number of fresh profiles, appends exactly the fresh
profiles in order, and never writes the metadata file itself. -/
theorem importLoop_spec (l : List DbConfig) :
    ∀ (s : CMState) (n : Nat), (l.map fun c => c.id).Nodup →
      (importLoop l s n).1 = n + (newProfiles l s).length ∧
      (importLoop l s n).2.configs = s.configs ++ newProfiles l s ∧
      (importLoop l s n).2.fileWrites = s.fileWrites := by
  induction l with
  | nil => intro s n _; simp [importLoop, newProfiles]
  | cons c rest ih =>
      intro s n hnd
      simp only [List.map_cons, List.nodup_cons] at hnd
      have hnd' : (rest.map fun c => c.id).Nodup := hnd.2
      have hcid : ∀ x ∈ rest, (c.id == x.id) = false := by
        intro x hx
        by_cases hbe : c.id = x.id
        · exact absurd (hbe ▸ (List.mem_map_of_mem (fun c => c.id) hx) :
            c.id ∈ rest.map fun c => c.id) hnd.1
        · simp [hbe]
      by_cases hex : s.configs.any (fun e => e.id == c.id)
      · have hfil : newProfiles (c :: rest) s = newProfiles rest s := by
          simp [newProfiles, List.filter_cons, hex]
        simp only [importLoop, if_pos hex]
        rw [hfil]
        exact ih s n hnd'
      · have hfil : newProfiles (c :: rest) s = c :: newProfiles rest s := by
          simp [newProfiles, List.filter_cons, hex]
        by_cases hpw : c.password = ""
        · simp only [importLoop, if_neg hex, if_pos hpw]
          have hcong : newProfiles rest { s with configs := s.configs ++ [c] } =
              newProfiles rest s := by
            refine List.filter_congr ?_
            intro x hx
            simp [List.any_append, hcid x hx]
          have hih := ih { s with configs := s.configs ++ [c] } (n + 1) hnd'
          rw [hcong] at hih
          refine ⟨?_, ?_, ?_⟩
          · rw [hih.1, hfil]
            simp
            omega
          · rw [hih.2.1, hfil]
            simp
          · exact hih.2.2
        · simp only [importLoop, if_neg hex, if_neg hpw]
          have hcong : newProfiles rest
              { s with vault := (setPassword c.id c.password s.vault).2
                       configs := s.configs ++ [c] } = newProfiles rest s := by
            refine List.filter_congr ?_
            intro x hx
            simp [List.any_append, hcid x hx]
          have hih := ih { s with vault := (setPassword c.id c.password s.vault).2
                                  configs := s.configs ++ [c] } (n + 1) hnd'
          rw [hcong] at hih
          refine ⟨?_, ?_, ?_⟩
          · rw [hih.1, hfil]
            simp
            omega
          · rw [hih.2.1, hfil]
            simp
          · exact hih.2.2

/-- The merge stage on a distinct-id batch: count of fresh profiles,
append-in-order, one metadata write exactly when something was added. -/
theorem importConfigs_spec (l : List DbConfig) (s : CMState)
    (hnd : (l.map fun c => c.id).Nodup) :
    (importConfigs l s).1 = (newProfiles l s).length ∧
    (importConfigs l s).2.configs = s.configs ++ newProfiles l s ∧
    (importConfigs l s).2.fileWrites =
      (if 0 < (newProfiles l s).length
       then [stripPasswords (s.configs ++ newProfiles l s)] else []) ++ s.fileWrites := by
  obtain ⟨h1, h2, h3⟩ := importLoop_spec l s 0 hnd
  rw [importConfigs]
  by_cases hpos : (importLoop l s 0).1 > 0
  · have hn : 0 < (newProfiles l s).length := by omega
    rw [if_pos hpos]
    refine ⟨?_, ?_, ?_⟩
    · show (importLoop l s 0).1 = (newProfiles l s).length
      omega
    · show (saveConfigRaw (importLoop l s 0).2).configs = s.configs ++ newProfiles l s
      simpa [saveConfigRaw] using h2
    · show (saveConfigRaw (importLoop l s 0).2).fileWrites = _
      simp only [saveConfigRaw]
      rw [h2, h3, if_pos hn]
      simp
  · have hn : ¬ 0 < (newProfiles l s).length := by omega
    rw [if_neg hpos]
    refine ⟨by omega, h2, ?_⟩
    rw [h3, if_neg hn]
    simp

/-! ### Claim C3 -/

/-- Claim C3, amended with the proviso that the file's profiles carry
pairwise distinct ids: importing a parsed valid batch of N profiles of
which K have ids already in the store adds exactly the N - K fresh ones,
appended in file order after the untouched existing collection, persists
metadata once exactly when at least one profile was added, and returns
the count of additions (zero being a normal outcome). -/
theorem import_merge_by_identity (l : List DbConfig) (s : CMState)
    (hnd : (l.map fun c => c.id).Nodup) :
    (importConfigs l s).1 =
      l.length - (l.filter fun c => s.configs.any fun e => e.id == c.id).length ∧
    (importConfigs l s).2.configs = s.configs ++ newProfiles l s ∧
    (importConfigs l s).2.fileWrites =
      (if 0 < (newProfiles l s).length
       then [stripPasswords (s.configs ++ newProfiles l s)] else []) ++ s.fileWrites := by
  obtain ⟨h1, h2, h3⟩ := importConfigs_spec l s hnd
  refine ⟨?_, h2, h3⟩
  have hsum := length_filter_not_add l (fun c => s.configs.any fun e => e.id == c.id)
  rw [h1]
  simp only [newProfiles] at *
  omega

/-- Counterexample to C3 exactly as stated: a parsed valid file with two
profiles sharing one id that is new to the (empty) store.  N = 2 profiles,
K = 0 ids already present, yet the import adds only one profile and
returns 1, not N - K = 2. -/
theorem import_merge_dup_ids_counterexample :
    ([cfgW, dupB].filter fun c => emptySt.configs.any fun e => e.id == c.id).length = 0 ∧
    [cfgW, dupB].length = 2 ∧
    (importConfigs [cfgW, dupB] emptySt).1 = 1 := by decide

/-- Witness for the amended C3 at closed inputs (one existing id, one
fresh id). -/
theorem import_merge_by_identity_witness :
    (importConfigs [dupB, cfgB] stW).1 =
      [dupB, cfgB].length -
        ([dupB, cfgB].filter fun c => stW.configs.any fun e => e.id == c.id).length :=
  (import_merge_by_identity [dupB, cfgB] stW (by decide)).1

/-! ### Claim C6 -/

/-- Claim C6: when structural JSON parsing of the file content fails and
no password was supplied, import fails with the distinguished
encrypted-file error exactly when the content bears the sealed-envelope
tag, and otherwise propagates the original parse error. -/
theorem import_parse_failure_dispatch
    (jparse : List Char → Option JVal)
    (cdec : Bytes → Bytes → Bytes → Option (List Char))
    (kdf : List Char → Bytes → Bytes)
    (content : List Char) (s : CMState)
    (hparse : jparse content = none) :
    importFromFile jparse cdec kdf content none s =
      .error (if encTag.isPrefixOf content then .encryptedFile else .parseError) := by
  unfold importFromFile
  rw [hparse]
  by_cases hp : encTag.isPrefixOf content
  · simp [hp]
  · simp [hp]

/-- Witness for C6 at a closed sealed-looking input. -/
theorem import_parse_failure_dispatch_witness :
    importFromFile jparseNoneW cdecW kdfW (encTag ++ ['x']) none stW = .error .encryptedFile := by
  rw [import_parse_failure_dispatch jparseNoneW cdecW kdfW (encTag ++ ['x']) stW rfl]
  rfl

/-! ### Claim C9 -/

/-- Claim C9: import accepts a bare JSON array of profiles, not only the
documented envelope object: when the parsed value is an array (hence has
no `connections` property), the whole parsed value itself is validated
and merged. -/
theorem import_accepts_bare_array
    (jparse : List Char → Option JVal)
    (cdec : Bytes → Bytes → Bytes → Option (List Char))
    (kdf : List Char → Bytes → Bytes)
    (content : List Char) (password : Option (List Char)) (s : CMState) (xs : List JVal)
    (hparse : jparse content = some (.jlist xs)) :
    importFromFile jparse cdec kdf content password s =
      (match validateList xs with
       | some l => .ok (importConfigs l s)
       | none => .error .invalidProfiles) := by
  unfold importFromFile
  rw [hparse]
  rfl

/-- Witness for C9 at closed inputs: a bare one-profile array imports
successfully. -/
theorem import_accepts_bare_array_witness :
    importFromFile jparseBareW cdecW kdfW ['['] none stW = .ok (importConfigs [cfgB] stW) := by
  rw [import_accepts_bare_array jparseBareW cdecW kdfW ['['] none stW [profileToJVal cfgB] rfl]
  rfl

/-! ### Export/import round-trip lemmas -/

theorem getConnections_exportEnvelope (cfgs : List DbConfig) (ts : String) :
    getConnections (exportEnvelope cfgs ts) = .jlist (cfgs.map profileToJVal) := rfl

/-- Serializing a valid profile and re-validating it restores the profile,
passwords included. -/
theorem validateProfile_profileToJVal (c : DbConfig) (h : c.type = "postgres") :
    validateProfile (profileToJVal c) = some c := by
  rcases c with ⟨id, name, ty, host, port, user, pw, db, ssl, vb, gr⟩
  have h' : ty = "postgres" := h
  subst h'
  cases gr with
  | none => rfl
  | some g => rfl

theorem validateList_map_profileToJVal (cfgs : List DbConfig)
    (h : ∀ c ∈ cfgs, c.type = "postgres") :
    validateList (cfgs.map profileToJVal) = some cfgs := by
  induction cfgs with
  | nil => rfl
  | cons c rest ih =>
      simp only [List.map_cons, validateList]
      rw [validateProfile_profileToJVal c (h c (by simp)),
          ih (fun x hx => h x (by simp [hx]))]

/-! ### Claim C4 -/

/-- Claim C4: exporting any valid profile collection with an encryption
password and `includePlainPasswords = false` yields a file starting with
the sealed-envelope tag, with no password stripping; importing that file
with the same password into a store with disjoint ids recovers every
exported profile — non-empty password fields included — and returns the
full count.  External `JSON.stringify`/`JSON.parse` and the cipher are
constrained only by their contracts at the values used. -/
theorem export_encrypted_import_roundtrip
    (jstringify : JVal → List Char) (jparse : List Char → Option JVal)
    (cenc : Bytes → Bytes → List Char → Bytes)
    (cdec : Bytes → Bytes → Bytes → Option (List Char))
    (kdf : List Char → Bytes → Bytes)
    (src : List DbConfig) (password : List Char) (ts : String) (salt iv : Bytes)
    (t : CMState)
    (hvalid : ∀ c ∈ src, c.type = "postgres")
    (hnd : (src.map fun c => c.id).Nodup)
    (hdisj : ∀ c ∈ src, t.configs.any (fun e => e.id == c.id) = false)
    (hjson : jparse (jstringify (exportEnvelope src ts)) = some (exportEnvelope src ts))
    (hnoparse : jparse (exportToFile jstringify cenc kdf src (some password) false ts salt iv) = none)
    (hs : ∀ x ∈ salt, x < 256) (hi : ∀ x ∈ iv, x < 256)
    (hct : ∀ x ∈ cenc (kdf password salt) iv (jstringify (exportEnvelope src ts)), x < 256)
    (hcd : cdec (kdf password salt) iv
        (cenc (kdf password salt) iv (jstringify (exportEnvelope src ts))) =
      some (jstringify (exportEnvelope src ts))) :
    encTag.isPrefixOf (exportToFile jstringify cenc kdf src (some password) false ts salt iv) = true ∧
    importFromFile jparse cdec kdf
        (exportToFile jstringify cenc kdf src (some password) false ts salt iv)
        (some password) t = .ok (importConfigs src t) ∧
    (importConfigs src t).1 = src.length ∧
    (importConfigs src t).2.configs = t.configs ++ src := by
  have hexp : exportToFile jstringify cenc kdf src (some password) false ts salt iv =
      encrypt cenc kdf (jstringify (exportEnvelope src ts)) password salt iv := rfl
  have hfresh : newProfiles src t = src := by
    refine List.filter_eq_self.mpr ?_
    intro c hc
    simp [hdisj c hc]
  refine ⟨?_, ?_, ?_, ?_⟩
  · rw [hexp, encrypt]
    exact encTag_isPrefixOf_append _
  · rw [hexp] at hnoparse ⊢
    simp only [importFromFile, hnoparse,
      decrypt_encrypt cenc cdec kdf (jstringify (exportEnvelope src ts)) password salt iv
        hs hi hct hcd,
      hjson, importParsed, getConnections_exportEnvelope, validateProfiles,
      validateList_map_profileToJVal src hvalid]
  · rw [(importConfigs_spec src t hnd).1, hfresh]
  · rw [(importConfigs_spec src t hnd).2.1, hfresh]

/-- Witness for C4 at closed inputs: the sealed export of one profile with
a non-empty password imports back in full. -/
theorem export_encrypted_import_roundtrip_witness :
    importFromFile jparseW cdecW4 kdfW
        (exportToFile jstringifyW cencW kdfW srcW (some pwW) false "t0" [3] [4])
        (some pwW) stW = .ok (importConfigs srcW stW) :=
  (export_encrypted_import_roundtrip jstringifyW jparseW cencW cdecW4 kdfW srcW pwW "t0"
    [3] [4] stW (by decide) (by decide) (by decide) rfl rfl (by decide) (by decide)
    (by decide) rfl).2.1

end DbCli
